import Mathlib

/-!
Shallow embedding of the skill-intelligence core:

* `backend/app/services/trend_engine_service.py` — `TrendEngineService`
* `backend/app/services/skill_extraction_service.py` — `SkillExtractionService`

Python `dict` objects are modelled as association lists with the usual
dict semantics (update in place keeps position, fresh keys are appended,
lookup returns the first hit).  Python `float` arithmetic on ratios of
integer counts is modelled over `ℚ`; Python string comparison is
lexicographic on code points, modelled by `lexLt`/`lexLe` below.
Fallible paths (uncaught `KeyError`/`IndexError`) return `Option`.
-/

namespace SkillIntel

/-! ### Python dict primitives (association lists) -/

/-- First value stored under key `k`, like `d.get(k)`. -/
def dictGet {α : Type} (l : List (String × α)) (k : String) : Option α :=
  (l.find? (fun p => p.1 = k)).map Prod.snd

/-- Python `d.get(k, dflt)`. -/
def dictGetD {α : Type} (l : List (String × α)) (k : String) (dflt : α) : α :=
  (dictGet l k).getD dflt

/-- Python `d[k] = v`: replace the value at an existing key (keeping its
position) or append a fresh binding. -/
def dictInsert {α : Type} (l : List (String × α)) (k : String) (v : α) :
    List (String × α) :=
  if l.any (fun p => p.1 = k) then
    l.map (fun p => if p.1 = k then (k, v) else p)
  else
    l ++ [(k, v)]

/-- Python `list(d.keys())`. -/
def dictKeys {α : Type} (l : List (String × α)) : List String :=
  l.map Prod.fst

/-! ### Python string comparison (lexicographic on code points) -/

/-- Python `a < b` on strings: strict lexicographic order on code
points. -/
def lexLt : List Char → List Char → Bool
  | _, [] => false
  | [], _ :: _ => true
  | a :: as, b :: bs =>
    if a.toNat < b.toNat then true
    else if b.toNat < a.toNat then false
    else lexLt as bs

/-- Python `a <= b` on strings. -/
def lexLe : List Char → List Char → Bool
  | [], _ => true
  | _ :: _, [] => false
  | a :: as, b :: bs =>
    if a.toNat < b.toNat then true
    else if b.toNat < a.toNat then false
    else lexLe as bs

/-- Strict string comparison, `p < before_period` in
`clear_historical_data`. -/
def strLt (a b : String) : Bool := lexLt a.toList b.toList

/-- Non-strict string comparison. -/
def strLe (a b : String) : Bool := lexLe a.toList b.toList

/-! ### TrendEngineService -/

/-- One value of the `trends` mapping produced by `analyze_trends` /
`_classify_all_as_new`. -/
structure TrendRecord where
  skill : String
  current_count : ℕ
  previous_count : ℕ
  absolute_change : ℤ
  percentage_change : ℚ
  trend : String
deriving DecidableEq, Repr

/-- One entry of `historical_data.json`, as written by
`save_skill_frequencies`. -/
structure Snapshot where
  period : String
  timestamp : String
  skill_counts : List (String × ℕ)
  total_occurrences : ℕ
  unique_skills : ℕ
deriving DecidableEq, Repr

/-- The persisted history: period id → snapshot. -/
abbrev HistoricalData := List (String × Snapshot)

/-- The constant `TrendEngineService.RISING_THRESHOLD = 0.15`. -/
def RISING_THRESHOLD : ℚ := 15 / 100

/-- The constant `TrendEngineService.DECLINING_THRESHOLD = -0.15`. -/
def DECLINING_THRESHOLD : ℚ := -(15 / 100)

/-- The constant `TrendEngineService.STABLE_THRESHOLD_LOW = -0.05` (declared but
never read by any method). -/
def STABLE_THRESHOLD_LOW : ℚ := -(5 / 100)

/-- The constant `TrendEngineService.STABLE_THRESHOLD_HIGH = 0.05` (declared but
never read by any method). -/
def STABLE_THRESHOLD_HIGH : ℚ := 5 / 100

/-- Python `round(x, 2)`: round to the nearest multiple of 1/100
(ties modelled by `round`, which cannot diverge on the exact decimal
values the claims exercise). -/
def round2 (x : ℚ) : ℚ := ((round (x * 100) : ℤ) : ℚ) / 100

/-- Embeds `TrendEngineService._classify_trend`. -/
def _classify_trend (percentage_change : ℚ) : String :=
  if percentage_change ≥ RISING_THRESHOLD then "rising"
  else if percentage_change ≤ DECLINING_THRESHOLD then "declining"
  else "stable"

/-- Embeds `TrendEngineService._classify_all_as_new`: every key of the counts
dict gets a fresh "rising" record. -/
def _classify_all_as_new (skill_counts : List (String × ℕ)) :
    List (String × TrendRecord) :=
  skill_counts.map (fun p =>
    (p.1, { skill := p.1
            current_count := p.2
            previous_count := 0
            absolute_change := (p.2 : ℤ)
            percentage_change := 100
            trend := "rising" }))

/-- Body of the per-skill loop of `analyze_trends`: `none` models the
`continue` that skips a skill absent from both periods. -/
def trendRecordFor (skill : String) (current_count previous_count : ℕ) :
    Option TrendRecord :=
  let pcCls : Option (ℚ × String) :=
    if previous_count = 0 then
      if current_count > 0 then some (1, "rising") else none
    else
      let f : ℚ := ((current_count : ℚ) - (previous_count : ℚ)) / (previous_count : ℚ)
      some (f, _classify_trend f)
  pcCls.map (fun fc =>
    { skill := skill
      current_count := current_count
      previous_count := previous_count
      absolute_change := (current_count : ℤ) - (previous_count : ℤ)
      percentage_change := round2 (fc.1 * 100)
      trend := fc.2 })

/-- The `for skill in all_skills` loop of `analyze_trends`.  Python
iterates a `set`, whose order is unspecified; the result is read as a
mapping, here enumerated current-keys-first, deduplicated. -/
def computeTrends (current comparison : List (String × ℕ)) :
    List (String × TrendRecord) :=
  let allSkills := (dictKeys current ++ dictKeys comparison).dedup
  allSkills.filterMap (fun skill =>
    (trendRecordFor skill (dictGetD current skill 0) (dictGetD comparison skill 0)).map
      (fun r => (skill, r)))

/-- Python `sorted(keys, reverse=True)`. -/
def sortedDesc (l : List String) : List String :=
  l.insertionSort (fun a b => strLe b a = true)

/-- Python truthiness of an optional string argument (`if period:` /
`if comparison_period:`): `None` and `""` are falsy. -/
def truthy : Option String → Option String
  | none => none
  | some s => if s = "" then none else some s

/-- Embeds `TrendEngineService.analyze_trends`.  The historical data is passed
in place of the JSON file (`_load_historical_data` returns `{}` when the
file is missing or malformed, so an absent file is `hist = []`).
Returns `none` where Python would raise (`IndexError`/`KeyError` on the
`periods_back` path, unreachable for the inputs the claims exercise). -/
def analyze_trends (hist : HistoricalData)
    (current_skill_counts : List (String × ℕ))
    (comparison_period : Option String) (periods_back : ℤ) :
    Option (List (String × TrendRecord)) :=
  if hist = [] then
    some (_classify_all_as_new current_skill_counts)
  else
    match truthy comparison_period with
    | some p =>
      match dictGet hist p with
      | none => some (_classify_all_as_new current_skill_counts)
      | some snap => some (computeTrends current_skill_counts snap.skill_counts)
    | none =>
      let sorted_periods := sortedDesc (dictKeys hist)
      if sorted_periods = [] then
        some (_classify_all_as_new current_skill_counts)
      else
        let target : ℤ := min (periods_back - 1) ((sorted_periods.length : ℤ) - 1)
        let idx : ℤ := if target < 0 then target + sorted_periods.length else target
        if h : 0 ≤ idx ∧ idx.toNat < sorted_periods.length then
          match dictGet hist (sorted_periods.get ⟨idx.toNat, h.2⟩) with
          | some snap => some (computeTrends current_skill_counts snap.skill_counts)
          | none => none
        else
          none

/-- Embeds `TrendEngineService.save_skill_frequencies`.  Here `today` stands for
`datetime.now()` (used for the default period id and the timestamp).
Returns the period id used together with the updated history. -/
def save_skill_frequencies (hist : HistoricalData)
    (skill_counts : List (String × ℕ)) (period : Option String)
    (today : String) : String × HistoricalData :=
  let p := match truthy period with
    | none => today
    | some s => s
  let data_entry : Snapshot :=
    { period := p
      timestamp := today
      skill_counts := skill_counts
      total_occurrences := (skill_counts.map Prod.snd).sum
      unique_skills := skill_counts.length }
  (p, dictInsert hist p data_entry)

/-- Embeds `TrendEngineService.clear_historical_data`: returns the number of
periods removed together with the remaining history. -/
def clear_historical_data (hist : HistoricalData)
    (before_period : Option String) : ℕ × HistoricalData :=
  match truthy before_period with
  | none => (hist.length, [])
  | some bp =>
    let periods_to_remove := (dictKeys hist).filter (fun p => strLt p bp)
    (periods_to_remove.length, hist.filter (fun e => !(strLt e.1 bp)))

/-- The `{rising, stable, declining}` buckets of `get_trend_summary`. -/
structure TrendSummary where
  rising : List TrendRecord
  stable : List TrendRecord
  declining : List TrendRecord
deriving DecidableEq, Repr

/-- Python `summary[skill_data['trend']].append(skill_data)`: here `none` models the
`KeyError` on a classification outside the three buckets. -/
def addToSummary (s : TrendSummary) (r : TrendRecord) : Option TrendSummary :=
  if r.trend = "rising" then some { s with rising := s.rising ++ [r] }
  else if r.trend = "stable" then some { s with stable := s.stable ++ [r] }
  else if r.trend = "declining" then some { s with declining := s.declining ++ [r] }
  else none

/-- Sort key of `get_trend_summary`: descending absolute value of
`absolute_change`. -/
def absChangeGe (a b : TrendRecord) : Prop :=
  |b.absolute_change| ≤ |a.absolute_change|

instance : DecidableRel absChangeGe := fun a b =>
  inferInstanceAs (Decidable (|b.absolute_change| ≤ |a.absolute_change|))

instance : IsTotal TrendRecord absChangeGe :=
  ⟨fun a b => (le_total |b.absolute_change| |a.absolute_change|).imp id id⟩

instance : IsTrans TrendRecord absChangeGe :=
  ⟨fun _ _ _ h1 h2 => le_trans h2 h1⟩

/-- Python `list.sort(key=lambda x: abs(x['absolute_change']), reverse=True)`. -/
def sortAbsDesc (l : List TrendRecord) : List TrendRecord :=
  l.insertionSort absChangeGe

/-- The `for skill_data in trends.values()` loop of
`get_trend_summary`: a `KeyError` (modelled `none`) aborts it. -/
def summarizeLoop : TrendSummary → List TrendRecord → Option TrendSummary
  | acc, [] => some acc
  | acc, r :: t =>
    match addToSummary acc r with
    | none => none
    | some acc2 => summarizeLoop acc2 t

/-- Embeds `TrendEngineService.get_trend_summary`; the input list stands for
`trends.values()`. -/
def get_trend_summary (trends : List TrendRecord) : Option TrendSummary :=
  (summarizeLoop ⟨[], [], []⟩ trends).map (fun s =>
    ⟨sortAbsDesc s.rising, sortAbsDesc s.stable, sortAbsDesc s.declining⟩)

/-! ### SkillExtractionService -/

/-- Value of one entry of the `skills` object of `skills.json`:
`category` may be absent (`.get('category', 'Unknown')`), `variations`
defaults to `[]` (`.get('variations', [])`). -/
structure SkillInfo where
  category : Option String
  variations : List String
deriving DecidableEq, Repr

/-- The `skills` object: canonical name → metadata. -/
abbrev SkillsData := List (String × SkillInfo)

/-- What reading `data/skills.json` can yield: no file, unparseable
JSON, or a parsed object whose `skills` key may be absent. -/
inductive CatalogFile
  | missing
  | malformed
  | parsed (skills : Option SkillsData)
deriving DecidableEq

/-- The exceptions `_load_skills_data` raises. -/
inductive LoadError
  | fileNotFound
  | invalidJson
deriving DecidableEq, Repr

/-- Embeds `SkillExtractionService._load_skills_data`: missing file raises
`FileNotFoundError`, malformed JSON raises `ValueError`; an empty or
absent `skills` object only logs a warning and is returned as `{}`. -/
def _load_skills_data : CatalogFile → Except LoadError SkillsData
  | .missing => .error .fileNotFound
  | .malformed => .error .invalidJson
  | .parsed skills => .ok (skills.getD [])

/-- Python `str.lower()` for ASCII text. -/
def strLower (s : String) : String := ⟨s.toList.map Char.toLower⟩

/-- Embeds `SkillExtractionService._build_skill_map`: lowercased canonical
names and variations map to the canonical name, last write wins. -/
def _build_skill_map (sd : SkillsData) : List (String × String) :=
  sd.foldl (fun m kv =>
    let m1 := dictInsert m (strLower kv.1) kv.1
    kv.2.variations.foldl (fun m2 v => dictInsert m2 (strLower v) kv.1) m1) []

/-- Embeds `SkillExtractionService.__init__`: load the catalog, then build the
variation map; any load exception propagates. -/
def serviceInit (f : CatalogFile) :
    Except LoadError (SkillsData × List (String × String)) :=
  (_load_skills_data f).map (fun sd => (sd, _build_skill_map sd))

/-- Python `\s` on ASCII text (`[ \t\n\r\f\v]`). -/
def isSpace (c : Char) : Bool :=
  c = ' ' || c = '\t' || c = '\n' || c = '\r' || c = '\x0b' || c = '\x0c'

/-- Python `str.strip()`. -/
def pyStrip (l : List Char) : List Char :=
  ((l.dropWhile isSpace).reverse.dropWhile isSpace).reverse

/-- Collapse runs of spaces to a single space (tail of
`re.sub(r'\s+', ' ', ·)` after every whitespace character has been
mapped to a space). -/
def squeezeSpaces : List Char → List Char
  | [] => []
  | [c] => [c]
  | a :: b :: rest =>
    if a = ' ' && b = ' ' then squeezeSpaces (b :: rest)
    else a :: squeezeSpaces (b :: rest)

/-- Python `re.sub(r'\s+', ' ', input_text.lower().strip())` for ASCII text. -/
def normalizeText (s : String) : List Char :=
  squeezeSpaces
    ((pyStrip (s.toList.map Char.toLower)).map (fun c => if isSpace c then ' ' else c))

/-- Python `\w` on ASCII text (`[A-Za-z0-9_]`). -/
def isWordChar (c : Char) : Bool := c.isAlphanum || c = '_'

/-- Whether the character at index `i` (if any) is a word character. -/
def wordAt (text : List Char) (i : ℕ) : Bool :=
  match text.drop i with
  | [] => false
  | c :: _ => isWordChar c

/-- The zero-width `\b` assertion at position `i`: the two sides of the
position disagree on word-character-ness (positions outside the text
count as non-word). -/
def boundaryAt (text : List Char) (i : ℕ) : Bool :=
  if i = 0 then wordAt text 0
  else wordAt text (i - 1) != wordAt text i

/-- Pattern `\b<literal>\b` anchored at position `i`: the escaped variation
occurs literally at `i` with a word boundary on both sides. -/
def matchesAt (pat text : List Char) (i : ℕ) : Bool :=
  ((text.drop i).take pat.length == pat) && boundaryAt text i &&
    boundaryAt text (i + pat.length)

/-- Python `re.search(r'\b' + re.escape(pat) + r'\b', text)`: some anchored
match exists.  `re.IGNORECASE` is redundant here because both the
variation keys and the text have already been lowercased. -/
def reSearch (pat text : List Char) : Bool :=
  (List.range (text.length + 1)).any (fun i => matchesAt pat text i)

/-- One element of the extraction result. -/
structure ExtractedSkill where
  skill : String
  category : String
deriving DecidableEq, Repr

/-- Sort key of the final `extracted_skills_list.sort`: ascending
canonical skill name. -/
def skillLeRel (a b : ExtractedSkill) : Prop :=
  strLe a.skill b.skill = true

instance : DecidableRel skillLeRel := fun a b =>
  inferInstanceAs (Decidable (strLe a.skill b.skill = true))

/-- Embeds `self.skills_data[name].get('category', 'Unknown')`.  The `none`
branch is unreachable because every value of the skill map is a key of
the catalog. -/
def categoryOf (sd : SkillsData) (name : String) : String :=
  match dictGet sd name with
  | some info => info.category.getD "Unknown"
  | none => "Unknown"

/-- A dynamically typed argument to `extract_skills`: a string or any
non-string object (`isinstance(input_text, str)` fails). -/
inductive PyInput
  | str (s : String)
  | nonString

/-- Body of the `for skill_variation, normalized_skill_name in
sorted_skill_variations` loop; the state is the discovered-skill set
paired with the output list. -/
def extractStep (sd : SkillsData) (text : List Char)
    (st : List String × List ExtractedSkill) (kv : String × String) :
    List String × List ExtractedSkill :=
  if kv.2 ∈ st.1 then st
  else if reSearch kv.1.toList text then
    (kv.2 :: st.1, st.2 ++ [{ skill := kv.2, category := categoryOf sd kv.2 }])
  else st

/-- Embeds `SkillExtractionService.extract_skills` (the skill map is a pure
function of the catalog, rebuilt here instead of cached on `self`). -/
def extract_skills (sd : SkillsData) (input : PyInput) : List ExtractedSkill :=
  match input with
  | .nonString => []
  | .str s =>
    if s = "" then []
    else
      let text := normalizeText s
      let sorted_skill_variations :=
        (_build_skill_map sd).insertionSort (fun a b => b.1.length ≤ a.1.length)
      let res := sorted_skill_variations.foldl (extractStep sd text) ([], [])
      res.2.insertionSort skillLeRel

/-! ### Order facts about the lexicographic comparison -/

theorem lexLe_total (a b : List Char) : lexLe a b = true ∨ lexLe b a = true := by
  induction a generalizing b with
  | nil => left; rfl
  | cons x xs ih =>
    cases b with
    | nil => right; rfl
    | cons y ys =>
      simp only [lexLe]
      rcases Nat.lt_trichotomy x.toNat y.toNat with h | h | h
      · left; simp [h]
      · have h1 : ¬ x.toNat < y.toNat := by omega
        have h2 : ¬ y.toNat < x.toNat := by omega
        simpa [h1, h2] using ih ys
      · right; simp [h]

theorem lexLe_trans : ∀ {a b c : List Char},
    lexLe a b = true → lexLe b c = true → lexLe a c = true := by
  intro a
  induction a with
  | nil => intro b c _ _; rfl
  | cons x xs ih =>
    intro b c hab hbc
    cases b with
    | nil => simp [lexLe] at hab
    | cons y ys =>
      cases c with
      | nil => simp [lexLe] at hbc
      | cons z zs =>
        simp only [lexLe] at hab hbc ⊢
        rcases Nat.lt_trichotomy x.toNat y.toNat with h1 | h1 | h1
        · rcases Nat.lt_trichotomy y.toNat z.toNat with h2 | h2 | h2
          · simp [show x.toNat < z.toNat by omega]
          · simp [show x.toNat < z.toNat by omega]
          · simp [show ¬ y.toNat < z.toNat by omega, h2] at hbc
        · rcases Nat.lt_trichotomy y.toNat z.toNat with h2 | h2 | h2
          · simp [show x.toNat < z.toNat by omega]
          · simp only [show ¬ x.toNat < y.toNat by omega, if_false,
              show ¬ y.toNat < x.toNat by omega] at hab
            simp only [show ¬ y.toNat < z.toNat by omega, if_false,
              show ¬ z.toNat < y.toNat by omega] at hbc
            simp only [show ¬ x.toNat < z.toNat by omega, if_false,
              show ¬ z.toNat < x.toNat by omega]
            exact ih hab hbc
          · simp [show ¬ y.toNat < z.toNat by omega, h2] at hbc
        · simp [show ¬ x.toNat < y.toNat by omega, h1] at hab

instance : IsTotal ExtractedSkill skillLeRel :=
  ⟨fun a b => lexLe_total a.skill.toList b.skill.toList⟩

instance : IsTrans ExtractedSkill skillLeRel :=
  ⟨fun _ _ _ h1 h2 => lexLe_trans h1 h2⟩

/-! ### Dictionary lemmas -/

theorem dictGet_nil {α : Type} (k : String) : dictGet ([] : List (String × α)) k = none := rfl

theorem dictGet_dictInsert_self {α : Type} (l : List (String × α)) (k : String) (v : α) :
    dictGet (dictInsert l k v) k = some v := by
  unfold dictInsert
  by_cases h : l.any (fun p => p.1 = k)
  · simp only [h, if_true]
    induction l with
    | nil => simp at h
    | cons a t ih =>
      by_cases hak : a.1 = k
      · simp [dictGet, hak]
      · have ht : t.any (fun p => p.1 = k) := by
          simp only [List.any_cons] at h
          rcases Bool.or_eq_true_iff.mp h with h' | h'
          · exact absurd (of_decide_eq_true h') hak
          · exact h'
        simpa [dictGet, hak] using ih ht
  · simp only [h, if_false]
    induction l with
    | nil => simp [dictGet]
    | cons a t ih =>
      have hak : ¬ a.1 = k := by
        intro hk
        exact h (by simp [List.any_cons, hk])
      have ht : ¬ t.any (fun p => p.1 = k) := by
        intro hk
        exact h (by simp [List.any_cons, hk])
      simpa [dictGet, hak] using ih ht

theorem dictGet_filter_keyPred {α : Type} (l : List (String × α)) (q : String → Bool)
    (k : String) :
    dictGet (l.filter (fun e => q e.1)) k = if q k then dictGet l k else none := by
  induction l with
  | nil => simp [dictGet]
  | cons a t ih =>
    by_cases hqa : q a.1
    · by_cases hak : a.1 = k
      · subst hak
        simp [dictGet, hqa]
      · simpa [dictGet, hqa, hak] using ih
    · by_cases hak : a.1 = k
      · subst hak
        simp only [List.filter_cons, hqa]
        simp only [Bool.false_eq_true, if_false] at *
        rw [ih]
        simp [dictGet, hqa]
      · simp only [List.filter_cons, hqa]
        simp only [Bool.false_eq_true, if_false]
        rw [ih]
        simp [dictGet, hak]

theorem dictGet_cons {α : Type} (a : String × α) (t : List (String × α)) (k : String) :
    dictGet (a :: t) k = if a.1 = k then some a.2 else dictGet t k := by
  by_cases h : a.1 = k <;> simp [dictGet, h]

/-- Looking up the mapping built by the `for skill in all_skills` loop:
a key of the enumeration yields exactly what the loop body produced for
it, anything else is absent. -/
theorem dictGet_filterMap_keys (keys : List String) (f : String → Option TrendRecord)
    (k : String) :
    dictGet (keys.filterMap (fun s => (f s).map (fun r => (s, r)))) k =
      if k ∈ keys then f k else none := by
  induction keys with
  | nil => simp [dictGet]
  | cons s ks ih =>
    cases hfs : f s with
    | none =>
      have hstep : List.filterMap (fun s => (f s).map (fun r => (s, r))) (s :: ks) =
          List.filterMap (fun s => (f s).map (fun r => (s, r))) ks := by
        simp [List.filterMap_cons, hfs]
      rw [hstep, ih]
      by_cases hks : k = s
      · subst hks
        by_cases hk : k ∈ ks <;> simp [hk, hfs]
      · simp [List.mem_cons, hks]
    | some r =>
      have hstep : List.filterMap (fun s => (f s).map (fun r => (s, r))) (s :: ks) =
          (s, r) :: List.filterMap (fun s => (f s).map (fun r => (s, r))) ks := by
        simp [List.filterMap_cons, hfs]
      rw [hstep, dictGet_cons, ih]
      by_cases hks : s = k
      · subst hks
        simp [hfs]
      · have hsk : ¬ k = s := fun h => hks h.symm
        by_cases hk : k ∈ ks <;> simp [hks, hsk, hk]

/-! ### Resolution of the comparison snapshot in `analyze_trends` -/

/-- A nonempty comparison period id that is found in the history routes
`analyze_trends` to the per-skill comparison loop over its snapshot. -/
theorem analyze_trends_found (hist : HistoricalData) (cur : List (String × ℕ))
    (p : String) (pb : ℤ) (snap : Snapshot) (hp : p ≠ "")
    (hfound : dictGet hist p = some snap) :
    analyze_trends hist cur (some p) pb = some (computeTrends cur snap.skill_counts) := by
  have hne : hist ≠ [] := by
    intro h
    subst h
    simp [dictGet] at hfound
  unfold analyze_trends
  simp [hne, truthy, hp, hfound]

/-- An empty history, or a nonempty comparison period id that is not in
the history, routes `analyze_trends` to `_classify_all_as_new`. -/
theorem analyze_trends_notfound (hist : HistoricalData) (cur : List (String × ℕ))
    (p : String) (pb : ℤ)
    (hmiss : hist = [] ∨ (p ≠ "" ∧ dictGet hist p = none)) :
    analyze_trends hist cur (some p) pb = some (_classify_all_as_new cur) := by
  rcases hmiss with h | ⟨hp, hnone⟩
  · subst h
    rfl
  · by_cases hne : hist = []
    · subst hne
      rfl
    · unfold analyze_trends
      simp [hne, truthy, hp, hnone]

/-- Looking up one skill of `_classify_all_as_new`. -/
theorem dictGet_classify_all (cur : List (String × ℕ))
    (hnd : (cur.map Prod.fst).Nodup) (skill : String) (count : ℕ)
    (hm : (skill, count) ∈ cur) :
    dictGet (_classify_all_as_new cur) skill =
      some { skill := skill, current_count := count, previous_count := 0,
             absolute_change := (count : ℤ), percentage_change := 100,
             trend := "rising" } := by
  induction cur with
  | nil => cases hm
  | cons a t ih =>
    have hlist : _classify_all_as_new (a :: t) =
        (a.1, { skill := a.1, current_count := a.2, previous_count := 0,
                absolute_change := (a.2 : ℤ), percentage_change := 100,
                trend := "rising" }) :: _classify_all_as_new t := rfl
    rw [hlist, dictGet_cons]
    rw [List.map_cons] at hnd
    rcases List.mem_cons.mp hm with h | h
    · have h1 : a.1 = skill := (congrArg Prod.fst h).symm
      have h2 : a.2 = count := (congrArg Prod.snd h).symm
      simp [h1, h2]
    · have hnx : a.1 ≠ skill := by
        intro he
        have hmm : skill ∈ t.map Prod.fst := List.mem_map_of_mem Prod.fst h
        exact (List.nodup_cons.mp hnd).1 (he ▸ hmm)
      simp only [hnx, if_false]
      exact ih (List.nodup_cons.mp hnd).2 h

/-- Looking up one skill of the comparison loop's result. -/
theorem dictGet_computeTrends (cur cmp : List (String × ℕ)) (skill : String) :
    dictGet (computeTrends cur cmp) skill =
      if skill ∈ (dictKeys cur ++ dictKeys cmp).dedup then
        trendRecordFor skill (dictGetD cur skill 0) (dictGetD cmp skill 0)
      else none := by
  unfold computeTrends
  exact dictGet_filterMap_keys _ _ _

/-! ### Claims -/

/-- C6: when the comparison period id is absent from the stored history,
or no history exists at all, `analyze_trends` does not error: every
skill of the current counts dict is returned as new — previous count 0,
absolute change equal to its current count, percentage change 100.0,
classification "rising". -/
theorem trend_missing_comparison_all_new
    (hist : HistoricalData) (cur : List (String × ℕ)) (p : String) (pb : ℤ)
    (hnd : (cur.map Prod.fst).Nodup)
    (hmiss : hist = [] ∨ (p ≠ "" ∧ dictGet hist p = none)) :
    ∃ res, analyze_trends hist cur (some p) pb = some res ∧
      ∀ skill count, (skill, count) ∈ cur →
        dictGet res skill = some
          { skill := skill, current_count := count, previous_count := 0,
            absolute_change := (count : ℤ), percentage_change := 100,
            trend := "rising" } := by
  refine ⟨_classify_all_as_new cur, analyze_trends_notfound hist cur p pb hmiss, ?_⟩
  intro skill count hm
  exact dictGet_classify_all cur hnd skill count hm

/-- C6 witness: a one-period history that does not contain the requested
comparison period: the skill "python" with current count 5 comes back as
new and rising. -/
theorem trend_missing_comparison_all_new_witness :
    ∃ res, analyze_trends
        [("2024-01", { period := "2024-01", timestamp := "t",
                       skill_counts := [("java", 3)], total_occurrences := 3,
                       unique_skills := 1 })]
        [("python", 5)] (some "2999-12") 1 = some res ∧
      dictGet res "python" = some
        { skill := "python", current_count := 5, previous_count := 0,
          absolute_change := 5, percentage_change := 100, trend := "rising" } := by
  obtain ⟨res, h1, h2⟩ := trend_missing_comparison_all_new
    [("2024-01", { period := "2024-01", timestamp := "t",
                   skill_counts := [("java", 3)], total_occurrences := 3,
                   unique_skills := 1 })]
    [("python", 5)] "2999-12" 1 (by decide) (Or.inr ⟨by decide, by decide⟩)
  exact ⟨res, h1, h2 "python" 5 (by decide)⟩

/-- C3: for a skill present in either compared period, `analyze_trends`
with previous count 0 and current count positive yields percentage
change 100.0, classification "rising" and absolute change equal to the
current count; with both counts 0 the skill is omitted from the result
mapping. -/
theorem trend_zero_previous_cases
    (hist : HistoricalData) (cur : List (String × ℕ)) (p : String) (pb : ℤ)
    (snap : Snapshot) (skill : String) (c : ℕ) (hp : p ≠ "")
    (hfound : dictGet hist p = some snap)
    (hmem : skill ∈ dictKeys cur ∨ skill ∈ dictKeys snap.skill_counts)
    (hprev : dictGetD snap.skill_counts skill 0 = 0)
    (hcur : dictGetD cur skill 0 = c) :
    ∃ res, analyze_trends hist cur (some p) pb = some res ∧
      (0 < c → dictGet res skill = some
        { skill := skill, current_count := c, previous_count := 0,
          absolute_change := (c : ℤ), percentage_change := 100,
          trend := "rising" }) ∧
      (c = 0 → dictGet res skill = none) := by
  refine ⟨computeTrends cur snap.skill_counts,
    analyze_trends_found hist cur p pb snap hp hfound, ?_, ?_⟩
  · intro hc
    rw [dictGet_computeTrends,
      if_pos (List.mem_dedup.mpr (List.mem_append.mpr hmem)), hprev, hcur]
    have h100 : round2 ((100 : ℚ)) = 100 := by norm_num [round2, round_eq]
    simp [trendRecordFor, hc, h100]
  · intro hc
    rw [dictGet_computeTrends]
    subst hc
    by_cases hin : skill ∈ (dictKeys cur ++ dictKeys snap.skill_counts).dedup
    · rw [if_pos hin, hprev, hcur]
      simp [trendRecordFor]
    · rw [if_neg hin]

/-- C3 witness: against a found comparison snapshot without "python",
current count 5 yields a new rising record, and a skill "cobol" present
with count 0 in the comparison and absent from the current counts is
omitted. -/
theorem trend_zero_previous_cases_witness :
    (∃ res, analyze_trends
        [("2024-01", { period := "2024-01", timestamp := "t",
                       skill_counts := [("java", 3), ("cobol", 0)],
                       total_occurrences := 3, unique_skills := 2 })]
        [("python", 5)] (some "2024-01") 1 = some res ∧
      dictGet res "python" = some
        { skill := "python", current_count := 5, previous_count := 0,
          absolute_change := 5, percentage_change := 100, trend := "rising" } ∧
      dictGet res "cobol" = none) := by
  obtain ⟨res, h1, h2, _⟩ := trend_zero_previous_cases
    [("2024-01", { period := "2024-01", timestamp := "t",
                   skill_counts := [("java", 3), ("cobol", 0)],
                   total_occurrences := 3, unique_skills := 2 })]
    [("python", 5)] "2024-01" 1
    { period := "2024-01", timestamp := "t",
      skill_counts := [("java", 3), ("cobol", 0)],
      total_occurrences := 3, unique_skills := 2 }
    "python" 5 (by decide) (by decide) (Or.inl (by decide)) (by decide) (by decide)
  obtain ⟨res', h1', _, h3'⟩ := trend_zero_previous_cases
    [("2024-01", { period := "2024-01", timestamp := "t",
                   skill_counts := [("java", 3), ("cobol", 0)],
                   total_occurrences := 3, unique_skills := 2 })]
    [("python", 5)] "2024-01" 1
    { period := "2024-01", timestamp := "t",
      skill_counts := [("java", 3), ("cobol", 0)],
      total_occurrences := 3, unique_skills := 2 }
    "cobol" 0 (by decide) (by decide) (Or.inr (by decide)) (by decide) (by decide)
  refine ⟨res, h1, h2 (by decide), ?_⟩
  have hres : some res = some res' := by rw [← h1, ← h1']
  rw [Option.some.injEq] at hres
  rw [hres]
  exact h3' rfl

/-- C1: for a trend comparison with positive previous count,
`analyze_trends` stores percentage change
`(current − previous) / previous × 100` rounded to two decimals, and
classifies "rising" exactly when the raw fraction is at least 0.15,
"declining" exactly when it is at most −0.15, and "stable" otherwise;
the declared ±5% stable band plays no role in the decision. -/
theorem trend_formula_and_thresholds
    (hist : HistoricalData) (cur : List (String × ℕ)) (p : String) (pb : ℤ)
    (snap : Snapshot) (skill : String) (c pc : ℕ) (hp : p ≠ "")
    (hfound : dictGet hist p = some snap)
    (hmem : skill ∈ dictKeys cur ∨ skill ∈ dictKeys snap.skill_counts)
    (hcur : dictGetD cur skill 0 = c)
    (hprev : dictGetD snap.skill_counts skill 0 = pc) (hpos : 0 < pc) :
    ∃ res r, analyze_trends hist cur (some p) pb = some res ∧
      dictGet res skill = some r ∧
      r.current_count = c ∧ r.previous_count = pc ∧
      r.percentage_change = round2 (((c : ℚ) - (pc : ℚ)) / (pc : ℚ) * 100) ∧
      (r.trend = "rising" ↔ 15 / 100 ≤ ((c : ℚ) - (pc : ℚ)) / (pc : ℚ)) ∧
      (r.trend = "declining" ↔ ((c : ℚ) - (pc : ℚ)) / (pc : ℚ) ≤ -(15 / 100)) ∧
      (r.trend = "stable" ↔
        (-(15 / 100) < ((c : ℚ) - (pc : ℚ)) / (pc : ℚ) ∧
          ((c : ℚ) - (pc : ℚ)) / (pc : ℚ) < 15 / 100)) ∧
      (∀ q : ℚ, DECLINING_THRESHOLD < q → q < RISING_THRESHOLD →
        _classify_trend q = "stable") := by
  have hpc0 : pc ≠ 0 := Nat.pos_iff_ne_zero.mp hpos
  refine ⟨computeTrends cur snap.skill_counts,
    { skill := skill, current_count := c, previous_count := pc,
      absolute_change := (c : ℤ) - (pc : ℤ),
      percentage_change := round2 (((c : ℚ) - (pc : ℚ)) / (pc : ℚ) * 100),
      trend := _classify_trend (((c : ℚ) - (pc : ℚ)) / (pc : ℚ)) },
    analyze_trends_found hist cur p pb snap hp hfound, ?_, rfl, rfl, rfl,
    ?_, ?_, ?_, ?_⟩
  · rw [dictGet_computeTrends,
      if_pos (List.mem_dedup.mpr (List.mem_append.mpr hmem)), hprev, hcur]
    simp [trendRecordFor, hpc0]
  · constructor
    · intro ht
      by_contra hlt
      push_neg at hlt
      have h1 : ¬ (((c : ℚ) - (pc : ℚ)) / (pc : ℚ) ≥ RISING_THRESHOLD) := by
        rw [RISING_THRESHOLD]
        exact not_le.mpr hlt
      by_cases h2 : ((c : ℚ) - (pc : ℚ)) / (pc : ℚ) ≤ DECLINING_THRESHOLD <;>
        simp [_classify_trend, h1, h2] at ht
    · intro hge
      have h1 : ((c : ℚ) - (pc : ℚ)) / (pc : ℚ) ≥ RISING_THRESHOLD := hge
      simp [_classify_trend, h1]
  · constructor
    · intro ht
      by_contra hlt
      push_neg at hlt
      have h2 : ¬ (((c : ℚ) - (pc : ℚ)) / (pc : ℚ) ≤ DECLINING_THRESHOLD) := by
        rw [DECLINING_THRESHOLD]
        exact not_le.mpr hlt
      by_cases h1 : ((c : ℚ) - (pc : ℚ)) / (pc : ℚ) ≥ RISING_THRESHOLD <;>
        simp [_classify_trend, h1, h2] at ht
    · intro hle
      have h2 : ((c : ℚ) - (pc : ℚ)) / (pc : ℚ) ≤ DECLINING_THRESHOLD := hle
      have h1 : ¬ (((c : ℚ) - (pc : ℚ)) / (pc : ℚ) ≥ RISING_THRESHOLD) := by
        rw [RISING_THRESHOLD]
        rw [DECLINING_THRESHOLD] at h2
        intro hcon
        linarith
      simp [_classify_trend, h1, h2]
  · constructor
    · intro ht
      constructor
      · by_contra hle
        push_neg at hle
        have h2 : ((c : ℚ) - (pc : ℚ)) / (pc : ℚ) ≤ DECLINING_THRESHOLD := hle
        have h1 : ¬ (((c : ℚ) - (pc : ℚ)) / (pc : ℚ) ≥ RISING_THRESHOLD) := by
          rw [RISING_THRESHOLD]
          rw [DECLINING_THRESHOLD] at h2
          intro hcon
          linarith
        simp [_classify_trend, h1, h2] at ht
      · by_contra hge
        push_neg at hge
        have h1 : ((c : ℚ) - (pc : ℚ)) / (pc : ℚ) ≥ RISING_THRESHOLD := hge
        simp [_classify_trend, h1] at ht
    · intro ⟨hlo, hhi⟩
      have h1 : ¬ (((c : ℚ) - (pc : ℚ)) / (pc : ℚ) ≥ RISING_THRESHOLD) := by
        rw [RISING_THRESHOLD]
        exact not_le.mpr hhi
      have h2 : ¬ (((c : ℚ) - (pc : ℚ)) / (pc : ℚ) ≤ DECLINING_THRESHOLD) := by
        rw [DECLINING_THRESHOLD]
        exact not_le.mpr hlo
      simp [_classify_trend, h1, h2]
  · intro q hlo hhi
    have h1 : ¬ (q ≥ RISING_THRESHOLD) := not_le.mpr hhi
    have h2 : ¬ (q ≤ DECLINING_THRESHOLD) := not_le.mpr hlo
    simp [_classify_trend, h1, h2]

/-- C1 witness: the spec's boundary example — previous 100, current 90
is a −10% change and classifies "stable" (the ±5% band would have called
it declining-adjacent, but it plays no role). -/
theorem trend_formula_and_thresholds_witness :
    ∃ res r, analyze_trends
        [("2024-01", { period := "2024-01", timestamp := "t",
                       skill_counts := [("python", 100)],
                       total_occurrences := 100, unique_skills := 1 })]
        [("python", 90)] (some "2024-01") 1 = some res ∧
      dictGet res "python" = some r ∧
      r.trend = "stable" ∧ r.percentage_change = -10 := by
  obtain ⟨res, r, h1, h2, _, _, hpc, _, _, hstab, _⟩ := trend_formula_and_thresholds
    [("2024-01", { period := "2024-01", timestamp := "t",
                   skill_counts := [("python", 100)],
                   total_occurrences := 100, unique_skills := 1 })]
    [("python", 90)] "2024-01" 1
    { period := "2024-01", timestamp := "t", skill_counts := [("python", 100)],
      total_occurrences := 100, unique_skills := 1 }
    "python" 90 100 (by decide) (by decide) (Or.inl (by decide))
    (by decide) (by decide) (by decide)
  refine ⟨res, r, h1, h2, hstab.mpr (by norm_num), ?_⟩
  rw [hpc]
  norm_num [round2, round_eq]

/-- C7: saving a counts map under an explicit period id and then looking
that id up returns exactly the saved counts; any previously stored
snapshot under the id is overwritten (the history is arbitrary), and
`save` returns the id it used. -/
theorem save_then_load_roundtrip
    (hist : HistoricalData) (counts : List (String × ℕ)) (pid today : String)
    (hp : pid ≠ "") :
    (save_skill_frequencies hist counts (some pid) today).1 = pid ∧
    (dictGet (save_skill_frequencies hist counts (some pid) today).2 pid).map
      Snapshot.skill_counts = some counts := by
  constructor
  · simp [save_skill_frequencies, truthy, hp]
  · simp [save_skill_frequencies, truthy, hp, dictGet_dictInsert_self]

/-- C7 witness: the spec example period "2024-01-15", overwriting an
existing snapshot for that period. -/
theorem save_then_load_roundtrip_witness :
    (save_skill_frequencies
        [("2024-01-15", { period := "2024-01-15", timestamp := "old",
                          skill_counts := [("java", 9)],
                          total_occurrences := 9, unique_skills := 1 })]
        [("python", 3)] (some "2024-01-15") "2024-01-20").1 = "2024-01-15" ∧
    (dictGet (save_skill_frequencies
        [("2024-01-15", { period := "2024-01-15", timestamp := "old",
                          skill_counts := [("java", 9)],
                          total_occurrences := 9, unique_skills := 1 })]
        [("python", 3)] (some "2024-01-15") "2024-01-20").2 "2024-01-15").map
      Snapshot.skill_counts = some [("python", 3)] :=
  save_then_load_roundtrip _ [("python", 3)] "2024-01-15" "2024-01-20" (by decide)

/-- C10: the snapshot written by `save_skill_frequencies` is internally
consistent: its `total_occurrences` is the sum of the stored counts, its
`unique_skills` is the number of distinct skill keys, and its `period`
field is the period id `save` returns. -/
theorem save_snapshot_consistent
    (hist : HistoricalData) (counts : List (String × ℕ)) (period : Option String)
    (today : String) (hnd : (counts.map Prod.fst).Nodup) :
    ∃ e, dictGet (save_skill_frequencies hist counts period today).2
        (save_skill_frequencies hist counts period today).1 = some e ∧
      e.total_occurrences = (counts.map Prod.snd).sum ∧
      e.unique_skills = ((counts.map Prod.fst).dedup).length ∧
      e.period = (save_skill_frequencies hist counts period today).1 := by
  have main : ∀ q : String,
      ∃ e, dictGet (dictInsert hist q
          { period := q, timestamp := today, skill_counts := counts,
            total_occurrences := (counts.map Prod.snd).sum,
            unique_skills := counts.length }) q = some e ∧
        e.total_occurrences = (counts.map Prod.snd).sum ∧
        e.unique_skills = ((counts.map Prod.fst).dedup).length ∧
        e.period = q := by
    intro q
    refine ⟨_, dictGet_dictInsert_self hist q _, rfl, ?_, rfl⟩
    show counts.length = _
    rw [hnd.dedup, List.length_map]
  cases htp : truthy period with
  | none => simpa [save_skill_frequencies, htp] using main today
  | some s => simpa [save_skill_frequencies, htp] using main s

/-- C10 witness: two skills with counts 2 and 3, saved under the default
(current-date) period id. -/
theorem save_snapshot_consistent_witness :
    ∃ e, dictGet (save_skill_frequencies [] [("a", 2), ("b", 3)] none
        "2024-02-02").2
      (save_skill_frequencies [] [("a", 2), ("b", 3)] none "2024-02-02").1 =
        some e ∧
      e.total_occurrences = 5 ∧ e.unique_skills = 2 ∧ e.period = "2024-02-02" := by
  obtain ⟨e, h1, h2, h3, h4⟩ :=
    save_snapshot_consistent [] [("a", 2), ("b", 3)] none "2024-02-02" (by decide)
  refine ⟨e, h1, ?_, ?_, ?_⟩
  · rw [h2]
    decide
  · rw [h3]
    decide
  · rw [h4]
    decide

/-- C8: `clear_historical_data` with a cutoff removes exactly the
periods lexicographically strictly below it (later or equal periods keep
their snapshots), with no cutoff it removes every period, and in both
cases it returns the number of periods removed. -/
theorem clear_before_cutoff
    (hist : HistoricalData) (bp : String) (hbp : bp ≠ "") :
    (clear_historical_data hist (some bp)).1 +
        (clear_historical_data hist (some bp)).2.length = hist.length ∧
    (∀ k, dictGet (clear_historical_data hist (some bp)).2 k =
      if strLt k bp then none else dictGet hist k) ∧
    (clear_historical_data hist none).1 = hist.length ∧
    (clear_historical_data hist none).2 = [] := by
  have hres : clear_historical_data hist (some bp) =
      (((dictKeys hist).filter (fun p => strLt p bp)).length,
        hist.filter (fun e => !(strLt e.1 bp))) := by
    simp [clear_historical_data, truthy, hbp]
  refine ⟨?_, ?_, rfl, rfl⟩
  · rw [hres]
    have hmapfilter : (dictKeys hist).filter (fun p => strLt p bp) =
        (hist.filter (fun e => strLt e.1 bp)).map Prod.fst := by
      unfold dictKeys
      rw [List.filter_map]
      rfl
    have hperm := List.filter_append_perm (fun e => strLt e.1 bp) hist
    have hlen := hperm.length_eq
    rw [List.length_append] at hlen
    simpa [hmapfilter] using hlen
  · intro k
    rw [hres]
    have := dictGet_filter_keyPred hist (fun p => !(strLt p bp)) k
    rw [this]
    cases hk : strLt k bp <;> simp [hk]

/-- C8 witness: the spec example cutoff "2024-01-10" removes the period
"2024-01-05" and keeps "2024-01-15", and 1 + 1 periods account for the
whole history. -/
theorem clear_before_cutoff_witness :
    (clear_historical_data
        [("2024-01-05", { period := "2024-01-05", timestamp := "t",
                          skill_counts := [], total_occurrences := 0,
                          unique_skills := 0 }),
         ("2024-01-15", { period := "2024-01-15", timestamp := "t",
                          skill_counts := [], total_occurrences := 0,
                          unique_skills := 0 })] (some "2024-01-10")).1 +
      (clear_historical_data
        [("2024-01-05", { period := "2024-01-05", timestamp := "t",
                          skill_counts := [], total_occurrences := 0,
                          unique_skills := 0 }),
         ("2024-01-15", { period := "2024-01-15", timestamp := "t",
                          skill_counts := [], total_occurrences := 0,
                          unique_skills := 0 })] (some "2024-01-10")).2.length = 2 ∧
    dictGet (clear_historical_data
        [("2024-01-05", { period := "2024-01-05", timestamp := "t",
                          skill_counts := [], total_occurrences := 0,
                          unique_skills := 0 }),
         ("2024-01-15", { period := "2024-01-15", timestamp := "t",
                          skill_counts := [], total_occurrences := 0,
                          unique_skills := 0 })] (some "2024-01-10")).2
      "2024-01-05" = none ∧
    dictGet (clear_historical_data
        [("2024-01-05", { period := "2024-01-05", timestamp := "t",
                          skill_counts := [], total_occurrences := 0,
                          unique_skills := 0 }),
         ("2024-01-15", { period := "2024-01-15", timestamp := "t",
                          skill_counts := [], total_occurrences := 0,
                          unique_skills := 0 })] (some "2024-01-10")).2
      "2024-01-15" = some { period := "2024-01-15", timestamp := "t",
                            skill_counts := [], total_occurrences := 0,
                            unique_skills := 0 } := by
  obtain ⟨h1, h2, _, _⟩ := clear_before_cutoff
    [("2024-01-05", { period := "2024-01-05", timestamp := "t",
                      skill_counts := [], total_occurrences := 0,
                      unique_skills := 0 }),
     ("2024-01-15", { period := "2024-01-15", timestamp := "t",
                      skill_counts := [], total_occurrences := 0,
                      unique_skills := 0 })] "2024-01-10" (by decide)
  refine ⟨h1, ?_, ?_⟩
  · rw [h2 "2024-01-05"]
    decide
  · rw [h2 "2024-01-15"]
    decide

/-- Unrolling the bucket loop of `get_trend_summary` when every record
carries one of the three known classifications. -/
theorem summarizeLoop_eq : ∀ (l : List TrendRecord) (acc : TrendSummary),
    (∀ r ∈ l, r.trend = "rising" ∨ r.trend = "stable" ∨ r.trend = "declining") →
    summarizeLoop acc l = some
      { rising := acc.rising ++ l.filter (fun r => r.trend == "rising"),
        stable := acc.stable ++ l.filter (fun r => r.trend == "stable"),
        declining := acc.declining ++ l.filter (fun r => r.trend == "declining") } := by
  intro l
  induction l with
  | nil => intro acc _; simp [summarizeLoop]
  | cons r t ih =>
    intro acc h
    have ht : ∀ x ∈ t, x.trend = "rising" ∨ x.trend = "stable" ∨ x.trend = "declining" :=
      fun x hx => h x (List.mem_cons_of_mem r hx)
    rcases h r (List.mem_cons_self r t) with hr | hr | hr
    · have hstep : addToSummary acc r = some { acc with rising := acc.rising ++ [r] } := by
        simp [addToSummary, hr]
      simp only [summarizeLoop, hstep]
      rw [ih _ ht]
      simp [List.filter_cons, hr, List.append_assoc]
    · have hstep : addToSummary acc r = some { acc with stable := acc.stable ++ [r] } := by
        simp [addToSummary, hr]
      simp only [summarizeLoop, hstep]
      rw [ih _ ht]
      simp [List.filter_cons, hr, List.append_assoc]
    · have hstep : addToSummary acc r =
          some { acc with declining := acc.declining ++ [r] } := by
        simp [addToSummary, hr]
      simp only [summarizeLoop, hstep]
      rw [ih _ ht]
      simp [List.filter_cons, hr, List.append_assoc]

/-- C9: when every input record carries one of the three
classifications, `get_trend_summary` puts each record into exactly one
of the rising/stable/declining lists — their concatenation is a
permutation of the input, so the lengths sum to the input size — and
each list is sorted by descending absolute value of `absolute_change`. -/
theorem summary_partitions_and_sorts (trends : List TrendRecord)
    (h : ∀ r ∈ trends,
      r.trend = "rising" ∨ r.trend = "stable" ∨ r.trend = "declining") :
    ∃ s, get_trend_summary trends = some s ∧
      (s.rising ++ s.stable ++ s.declining).Perm trends ∧
      s.rising.length + s.stable.length + s.declining.length = trends.length ∧
      List.Sorted absChangeGe s.rising ∧ List.Sorted absChangeGe s.stable ∧
      List.Sorted absChangeGe s.declining := by
  have hfold := summarizeLoop_eq trends ⟨[], [], []⟩ h
  have hsum : get_trend_summary trends = some
      ⟨sortAbsDesc (trends.filter (fun r => r.trend == "rising")),
       sortAbsDesc (trends.filter (fun r => r.trend == "stable")),
       sortAbsDesc (trends.filter (fun r => r.trend == "declining"))⟩ := by
    unfold get_trend_summary
    rw [hfold]
    simp
  have pR := List.perm_insertionSort absChangeGe
    (trends.filter (fun r => r.trend == "rising"))
  have pS := List.perm_insertionSort absChangeGe
    (trends.filter (fun r => r.trend == "stable"))
  have pD := List.perm_insertionSort absChangeGe
    (trends.filter (fun r => r.trend == "declining"))
  have e1 : (trends.filter (fun r => !(r.trend == "rising"))).filter
        (fun r => r.trend == "stable") =
      trends.filter (fun r => r.trend == "stable") := by
    rw [List.filter_filter]
    refine List.filter_congr ?_
    intro r _
    cases hx : (r.trend == "stable") with
    | true =>
      have hst : r.trend = "stable" := beq_iff_eq.mp hx
      simp [hst]
    | false => simp [hx]
  have e2 : (trends.filter (fun r => !(r.trend == "rising"))).filter
        (fun r => !(r.trend == "stable")) =
      trends.filter (fun r => r.trend == "declining") := by
    rw [List.filter_filter]
    refine List.filter_congr ?_
    intro r hr
    rcases h r hr with h' | h' | h' <;> simp [h']
  have step1 := List.filter_append_perm
    (fun r : TrendRecord => r.trend == "rising") trends
  have step2 := List.filter_append_perm
    (fun r : TrendRecord => r.trend == "stable")
    (trends.filter (fun r => !(r.trend == "rising")))
  rw [e1, e2] at step2
  have hsplit : ((trends.filter (fun r => r.trend == "rising")) ++
      ((trends.filter (fun r => r.trend == "stable")) ++
        (trends.filter (fun r => r.trend == "declining")))).Perm trends :=
    ((List.Perm.append_left _ step2).trans step1)
  have hperm : ((sortAbsDesc (trends.filter (fun r => r.trend == "rising"))) ++
      (sortAbsDesc (trends.filter (fun r => r.trend == "stable"))) ++
      (sortAbsDesc (trends.filter (fun r => r.trend == "declining")))).Perm trends := by
    rw [List.append_assoc]
    exact (List.Perm.append pR (List.Perm.append pS pD)).trans hsplit
  refine ⟨_, hsum, hperm, ?_, ?_, ?_, ?_⟩
  · have := hperm.length_eq
    simpa [List.length_append, Nat.add_assoc] using this
  · exact List.sorted_insertionSort absChangeGe _
  · exact List.sorted_insertionSort absChangeGe _
  · exact List.sorted_insertionSort absChangeGe _

/-- C9 witness: three records, one per classification; each lands in its
bucket (lengths sum to 3) and the buckets are sorted by descending
absolute change. -/
theorem summary_partitions_and_sorts_witness :
    ∃ s, get_trend_summary
        [{ skill := "a", current_count := 6, previous_count := 5,
           absolute_change := 1, percentage_change := 20, trend := "rising" },
         { skill := "b", current_count := 0, previous_count := 10,
           absolute_change := -10, percentage_change := -100, trend := "declining" },
         { skill := "c", current_count := 10, previous_count := 10,
           absolute_change := 0, percentage_change := 0, trend := "stable" }] = some s ∧
      s.rising.length + s.stable.length + s.declining.length = 3 ∧
      List.Sorted absChangeGe s.rising ∧ List.Sorted absChangeGe s.stable ∧
      List.Sorted absChangeGe s.declining := by
  obtain ⟨s, h1, _, h3, h4, h5, h6⟩ := summary_partitions_and_sorts
    [{ skill := "a", current_count := 6, previous_count := 5,
       absolute_change := 1, percentage_change := 20, trend := "rising" },
     { skill := "b", current_count := 0, previous_count := 10,
       absolute_change := -10, percentage_change := -100, trend := "declining" },
     { skill := "c", current_count := 10, previous_count := 10,
       absolute_change := 0, percentage_change := 0, trend := "stable" }]
    (by intro r hr; fin_cases hr <;> simp)
  exact ⟨s, h1, by simpa using h3, h4, h5, h6⟩

/-- C4 counterexample: a catalog file that parses to an empty `skills`
object does not raise — `SkillExtractionService` construction succeeds
with an empty vocabulary, contradicting the claim that an empty catalog
aborts startup. -/
theorem load_empty_catalog_succeeds :
    serviceInit (CatalogFile.parsed (some [])) = Except.ok ([], []) := rfl

/-- C4 amended: loading fails (aborting startup) exactly when the
catalog file is missing (`FileNotFoundError`) or malformed JSON
(`ValueError`); an empty or absent `skills` object loads successfully as
an empty vocabulary, with only a logged warning. -/
theorem load_fails_iff_missing_or_malformed :
    serviceInit CatalogFile.missing = Except.error LoadError.fileNotFound ∧
    serviceInit CatalogFile.malformed = Except.error LoadError.invalidJson ∧
    ∀ f : CatalogFile, (∃ e, serviceInit f = Except.error e) ↔
      (f = CatalogFile.missing ∨ f = CatalogFile.malformed) := by
  refine ⟨rfl, rfl, ?_⟩
  intro f
  cases f with
  | missing => exact ⟨fun _ => Or.inl rfl, fun _ => ⟨LoadError.fileNotFound, rfl⟩⟩
  | malformed => exact ⟨fun _ => Or.inr rfl, fun _ => ⟨LoadError.invalidJson, rfl⟩⟩
  | parsed sk =>
    constructor
    · rintro ⟨e, he⟩
      simp [serviceInit, _load_skills_data, Except.map] at he
    · rintro (h | h) <;> cases h

/-- C2 counterexample: with aliases "Node" and "Node.js" mapping to the
two distinct canonical skills "Node" and "Node.js", extraction from
"Node.js developer" also returns the canonical skill of the shorter
alias "Node" — the `\b` boundary fires before the non-word character
'.', so longest-alias-first ordering does not suppress it. -/
theorem node_alias_also_matches :
    { skill := "Node", category := "Backend" } ∈ extract_skills
      [("Node", { category := some "Backend", variations := [] }),
       ("Node.js", { category := some "Runtime", variations := [] })]
      (.str "Node.js developer") := by decide

/-- C2 amended: on the vocabulary with canonical skills "Node" and
"Node.js", extraction from "Node.js developer" returns the canonical
skills of BOTH aliases (alphabetically sorted): "node.js" is tried first
and matched, and the shorter alias "node" still matches as a whole word
because '.' is not a word character; the longest-alias-first order only
prevents duplicate canonicals and matches inside longer word-character
runs. -/
theorem node_and_nodejs_both_extracted :
    extract_skills
      [("Node", { category := some "Backend", variations := [] }),
       ("Node.js", { category := some "Runtime", variations := [] })]
      (.str "Node.js developer") =
    [{ skill := "Node", category := "Backend" },
     { skill := "Node.js", category := "Runtime" }] := by decide

/-- The matching loop of `extract_skills` keeps the output free of
duplicate canonical names, and every emitted name is in the
discovered set. -/
theorem extractFold_invariant (sd : SkillsData) (text : List Char) :
    ∀ (l : List (String × String)) (st : List String × List ExtractedSkill),
      (st.2.map ExtractedSkill.skill).Nodup →
      (∀ s ∈ st.2.map ExtractedSkill.skill, s ∈ st.1) →
      ((l.foldl (extractStep sd text) st).2.map ExtractedSkill.skill).Nodup ∧
      (∀ s ∈ (l.foldl (extractStep sd text) st).2.map ExtractedSkill.skill,
        s ∈ (l.foldl (extractStep sd text) st).1) := by
  intro l
  induction l with
  | nil => intro st h1 h2; exact ⟨h1, h2⟩
  | cons kv t ih =>
    intro st h1 h2
    rw [List.foldl_cons]
    have hstep : ((extractStep sd text st kv).2.map ExtractedSkill.skill).Nodup ∧
        (∀ s ∈ (extractStep sd text st kv).2.map ExtractedSkill.skill,
          s ∈ (extractStep sd text st kv).1) := by
      unfold extractStep
      by_cases hd : kv.2 ∈ st.1
      · simp only [hd, if_true]
        exact ⟨h1, h2⟩
      · by_cases hm : reSearch kv.1.toList text
        · simp only [hd, if_false, hm, if_true]
          constructor
          · rw [List.map_append]
            rw [List.nodup_append]
            refine ⟨h1, List.nodup_singleton _, ?_⟩
            intro a ha hb
            have hab : a = kv.2 := List.mem_singleton.mp hb
            subst hab
            exact hd (h2 _ ha)
          · intro s hs
            rw [List.map_append] at hs
            rcases List.mem_append.mp hs with hs | hs
            · exact List.mem_cons_of_mem _ (h2 s hs)
            · have : s = kv.2 := List.mem_singleton.mp hs
              subst this
              exact List.mem_cons_self _ _
        · simp only [hd, if_false, hm]
          exact ⟨h1, h2⟩
    exact ih _ hstep.1 hstep.2

/-- C5: the extraction result is sorted alphabetically by canonical
skill name and never contains two entries with the same canonical name;
non-string input and the empty string yield an empty list rather than an
error. -/
theorem extract_sorted_nodup_empty (sd : SkillsData) (input : PyInput) :
    List.Sorted skillLeRel (extract_skills sd input) ∧
    ((extract_skills sd input).map ExtractedSkill.skill).Nodup ∧
    extract_skills sd PyInput.nonString = [] ∧
    extract_skills sd (PyInput.str "") = [] := by
  refine ⟨?_, ?_, rfl, rfl⟩
  · cases input with
    | nonString => simp [extract_skills]
    | str s =>
      by_cases hs : s = ""
      · simp [extract_skills, hs]
      · have hrw : extract_skills sd (.str s) =
            List.insertionSort skillLeRel
              (((_build_skill_map sd).insertionSort
                  (fun a b => b.1.length ≤ a.1.length)).foldl
                (extractStep sd (normalizeText s)) ([], [])).2 := by
          simp [extract_skills, hs]
        rw [hrw]
        exact List.sorted_insertionSort skillLeRel _
  · cases input with
    | nonString => simp [extract_skills]
    | str s =>
      by_cases hs : s = ""
      · simp [extract_skills, hs]
      · have hrw : extract_skills sd (.str s) =
            List.insertionSort skillLeRel
              (((_build_skill_map sd).insertionSort
                  (fun a b => b.1.length ≤ a.1.length)).foldl
                (extractStep sd (normalizeText s)) ([], [])).2 := by
          simp [extract_skills, hs]
        rw [hrw]
        have hinv := extractFold_invariant sd (normalizeText s)
          ((_build_skill_map sd).insertionSort (fun a b => b.1.length ≤ a.1.length))
          ([], []) (by simp) (by simp)
        have hperm := List.perm_insertionSort skillLeRel
          (((_build_skill_map sd).insertionSort
              (fun a b => b.1.length ≤ a.1.length)).foldl
            (extractStep sd (normalizeText s)) ([], [])).2
        exact ((hperm.map ExtractedSkill.skill).symm).nodup hinv.1

end SkillIntel
